import Mathlib

/-!
Verification model of the deck printer program (src/main.py).

Modelling conventions:
- Python floats are modelled as exact fractions of integers; the Python
  builtin `round` is round-half-to-even (`pyRound num den` rounds the
  exact fraction num / den).
- A numpy image array of shape (h, w, c) is modelled as a pixel function
  with explicit dimensions (`PyImage`).
- External services (the Scryfall catalog, HTTP image fetching, URL path
  parsing) are modelled as oracle parameters; Python exceptions are
  modelled with `Except`.
-/

namespace DeckPrinter

/-- Python builtin `round` applied to the exact fraction num / den with
den positive: nearest integer, ties to even. The float quantities of the
program are modelled by exact fractions, so `round(q)` becomes
`pyRound num den` with `q = num / den`. -/
def pyRound (num den : ℤ) : ℤ :=
  let n : ℤ := Int.fdiv num den
  let r : ℤ := num - n * den
  if 2 * r < den then n
  else if den < 2 * r then n + 1
  else if n % 2 = 0 then n else n + 1

/-- Model of a numpy image array of shape (h, w, c): explicit dimensions
plus a pixel function (values outside the dimensions are irrelevant). -/
structure PyImage where
  h : ℕ
  w : ℕ
  c : ℕ
  pix : ℕ → ℕ → ℕ → ℕ

/-- The all-white filler cell used by `tile_in_pages`
(`np.full([nb_missing, *img_shape], WHITE)` with `WHITE = 255`). -/
def whiteCell (h w c : ℕ) : PyImage :=
  ⟨h, w, c, fun _ _ _ => 255⟩

/-- Shape-uniformity of an image list, the implicit precondition of
`np.vstack`; the first image gives the reference shape. -/
def sameShapeB : List PyImage → Bool
  | [] => true
  | img0 :: rest =>
    (img0 :: rest).all (fun i => i.h == img0.h && i.w == img0.w && i.c == img0.c)

/-- Number of filler cells computed by `tile_in_pages`:
`nb_missing = CARDS_PER_PAGE - (nb_images % CARDS_PER_PAGE)`. -/
def nbMissing (n : ℕ) : ℕ := 9 - n % 9

/-- The cell sequence after appending the filler block
(`np.vstack([image_list, np.full([nb_missing, *img_shape], WHITE)])`). -/
def cellsWithFiller (l : List PyImage) (h w c : ℕ) : List PyImage :=
  l ++ List.replicate (nbMissing l.length) (whiteCell h w c)

/-- Inter-card padding on the height axis:
`round(PAD_INCHES / H_INCHES * canvas.shape[1])` with
`PAD_INCHES = 0.005`, `H_INCHES = 3.48`; the value
`0.005 / 3.48 * h` is the exact fraction `(5 * 100 * h) / (1000 * 348)`. -/
def cellPadH (h : ℕ) : ℕ :=
  (pyRound (5 * 100 * (h : ℤ)) (1000 * 348)).toNat

/-- Inter-card padding on the width axis:
`round(PAD_INCHES / W_INCHES * canvas.shape[2])` with
`W_INCHES = 2.49`; the value `0.005 / 2.49 * w` is the exact fraction
`(5 * 100 * w) / (1000 * 249)`. -/
def cellPadW (w : ℕ) : ℕ :=
  (pyRound (5 * 100 * (w : ℤ)) (1000 * 249)).toNat

/-- Application of the inter-card padding to one cell. The pad-width
array in the code has shape (4, 2) with only column 0 assigned, so
`np.pad` adds `p` white rows before (top) and `q` white columns before
(left) of every cell, and nothing after. -/
def padCell (p q : ℕ) (img : PyImage) : PyImage :=
  ⟨p + img.h, q + img.w, img.c, fun y x ch =>
    if y < p ∨ x < q then 255 else img.pix (y - p) (x - q) ch⟩

/-- Outer page margin on the height axis: `round(MISSING_HEIGHT / 2)`
where `MISSING_HEIGHT = (11 - 3.48 * 3) / 3.48 * canvas_shape[1]` and
`canvas_shape` is the shape of the padded cell stack recorded before
`rearrange`, so `hp` is the padded height of a single cell; the value
`(11 - 3.48 * 3) / 3.48 * hp / 2` is the exact fraction
`((11 * 100 - 348 * 3) * hp) / (348 * 2)`. -/
def marginH (hp : ℕ) : ℕ :=
  (pyRound ((11 * 100 - 348 * 3) * (hp : ℤ)) (348 * 2)).toNat

/-- Outer page margin on the width axis: `round(MISSING_WIDTH / 2)`
where `MISSING_WIDTH = (8.5 - 2.49 * 3) / 2.49 * canvas_shape[2]`, `wp`
being the padded width of a single cell; the value
`(8.5 - 2.49 * 3) / 2.49 * wp / 2` is the exact fraction
`((85 * 10 - 249 * 3) * wp) / (249 * 2)`. -/
def marginW (wp : ℕ) : ℕ :=
  (pyRound ((85 * 10 - 249 * 3) * (wp : ℤ)) (249 * 2)).toNat

/-- One output page: the `rearrange` step places padded cell
`9*p + 3*r + c` at grid position (row r, col c) of page `p`, and the
second `np.pad` call (pad-width shape (4, 1), broadcast by numpy to
symmetric before/after amounts) adds white margins `mh` and `mw` on both
sides of each axis. -/
def pageAt (padded : List PyImage) (hp wp c mh mw : ℕ) (p : ℕ) : PyImage :=
  ⟨2 * mh + 3 * hp, 2 * mw + 3 * wp, c, fun y x ch =>
    if y < mh ∨ x < mw ∨ mh + 3 * hp ≤ y ∨ mw + 3 * wp ≤ x then 255
    else
      (padded.getD (9 * p + 3 * ((y - mh) / hp) + (x - mw) / wp)
          (whiteCell hp wp c)).pix ((y - mh) % hp) ((x - mw) % wp) ch⟩

/-- The page layout engine `tile_in_pages`. The empty list makes
`image_list[0]` raise `IndexError` and a non-uniform shape makes
`np.vstack` raise, both modelled as `none`. -/
def tile_in_pages (l : List PyImage) : Option (List PyImage) :=
  match l with
  | [] => none
  | img0 :: _ =>
    if l.all (fun i => i.h == img0.h && i.w == img0.w && i.c == img0.c) then
      some (
        (List.range ((cellsWithFiller l img0.h img0.w img0.c).length / 9)).map
          (pageAt
            ((cellsWithFiller l img0.h img0.w img0.c).map
              (padCell (cellPadH img0.h) (cellPadW img0.w)))
            (cellPadH img0.h + img0.h) (cellPadW img0.w + img0.w) img0.c
            (marginH (cellPadH img0.h + img0.h))
            (marginW (cellPadW img0.w + img0.w))))
    else none

/-- The cells of page `p` of the layout (before the inter-card padding):
the page is the row-major 3x3 arrangement of these 9 cells. -/
def pageCells (l : List PyImage) (p : ℕ) : List PyImage :=
  match l with
  | [] => []
  | img0 :: _ =>
    ((cellsWithFiller l img0.h img0.w img0.c).drop (9 * p)).take 9

/-- Extraction of one pixel of cell `i` from the produced pages by the
known grid geometry: cell `i` sits on page `i / 9` at grid row
`i % 9 / 3`, grid column `i % 9 % 3`, offset by the outer margins. -/
def extractCellPix (pages : List PyImage) (hp wp mh mw : ℕ)
    (i y x ch : ℕ) : ℕ :=
  (pages.getD (i / 9) (whiteCell 0 0 0)).pix
    (mh + i % 9 / 3 * hp + y) (mw + i % 9 % 3 * wp + x) ch

/-- Model of the JSON-like catalog record for one card: exactly the
fields the program reads (`id`, `type_line`, `image_uris.normal`, and
`all_parts` as a list of (component, id) pairs; a record without an
`all_parts` key is modelled by the empty list, matching
`card_data.get('all_parts', [])`). -/
structure CardRecord where
  id : String
  type_line : String
  image_normal : String
  all_parts : List (String × String)
deriving DecidableEq, Repr

/-- Oracle bundle for the external services: the scrython catalog calls
and the HTTP image fetch plus decode, each of which may raise. -/
structure Catalog (Img : Type) where
  byId : String → Except String CardRecord
  namedFuzzy : String → Except String CardRecord
  searchData : String → Except String (List CardRecord)
  imageBytes : String → Except String Img

/-- The function `fetch_image`: downloads and decodes
`card_data['image_uris']['normal']`. -/
def fetch_image {Img : Type} (cat : Catalog Img) (card_data : CardRecord) :
    Except String Img :=
  cat.imageBytes card_data.image_normal

/-- The function `get_tokens`: the set of ids of the parts of the card
whose component is the string token. -/
def get_tokens (card_data : CardRecord) : Finset String :=
  ((card_data.all_parts.filter
      (fun pr => decide (pr.1 = "token"))).map Prod.snd).toFinset

/-- Python `str.strip` with no argument: removes leading and trailing
whitespace. Implemented on the character list of the string. -/
def pyTrim (s : String) : String :=
  ⟨((s.data.dropWhile Char.isWhitespace).reverse.dropWhile
      Char.isWhitespace).reverse⟩

/-- Python `str.startswith`. -/
def pyStartsWith (s pre : String) : Bool :=
  decide (s.data.take pre.data.length = pre.data)

/-- Python membership test of one character in a string. -/
def pyContainsChar (s : String) (c : Char) : Bool :=
  s.data.contains c

/-- Python `str.isdigit` (restricted to ASCII digits): true iff the
string is nonempty and all characters are digits. -/
def pyIsDigit (s : String) : Bool :=
  !s.data.isEmpty && s.data.all Char.isDigit

/-- Python `str.strip` with argument a slash: removes all leading and
trailing slash characters. -/
def pyStripSlashes (s : String) : String :=
  ⟨((s.data.dropWhile (· == '/')).reverse.dropWhile (· == '/')).reverse⟩

/-- Python `str.split` on a separator character, no maxsplit: the
groups between occurrences of the separator (the empty string splits to
one empty group, as in Python). -/
def splitChar (c : Char) : List Char → List (List Char)
  | [] => [[]]
  | x :: xs =>
    if x = c then [] :: splitChar c xs
    else
      match splitChar c xs with
      | [] => [[x]]
      | g :: gs => (x :: g) :: gs

/-- The path segments used by `resolve_token_spec`:
`parsed.path.strip(slash).split(slash)`. -/
def pathParts (path : String) : List String :=
  (splitChar '/' (pyStripSlashes path).data).map (fun g => (⟨g⟩ : String))

/-- Python `str.split` with separator slash and maxsplit 1: the part
before the first slash and the rest. -/
def splitOnceSlash (s : String) : String × String :=
  match splitChar '/' s.data with
  | [] => (s, "")
  | a :: rest => (⟨a⟩, ⟨List.intercalate ['/'] rest⟩)

/-- The body of the try block of `resolve_token_spec`; oracle exceptions
propagate out of it as `Except.error`, and falling off the end of the
function returns `None`. The extraction of the path component of the
parsed URL (`urlparse(spec).path`) is the oracle `upath`. -/
def resolve_body {Img : Type} (cat : Catalog Img) (upath : String → String)
    (s : String) : Except String (Option String) := do
  if pyStartsWith s "http" then
    let parts := pathParts (upath s)
    if parts.length ≥ 3 ∧ parts.headD "" = "card" then
      let results ← cat.searchData
        ("set:" ++ parts.getD 1 "" ++ " number:" ++ parts.getD 2 "")
      match results with
      | [] => pure none
      | r :: _ => pure (some r.id)
    else pure none
  else if pyContainsChar s '/' then
    let results ← cat.searchData
      ("set:" ++ (splitOnceSlash s).1 ++ " number:" ++ (splitOnceSlash s).2)
    match results with
    | [] => pure none
    | r :: _ => pure (some r.id)
  else
    let card ← cat.namedFuzzy s
    pure (some card.id)

/-- The function `resolve_token_spec`: strips the spec, runs the try
body, and converts every exception into the not-found result `none`. -/
def resolve_token_spec {Img : Type} (cat : Catalog Img)
    (upath : String → String) (spec : String) : Option String :=
  match resolve_body cat upath (pyTrim spec) with
  | .ok v => v
  | .error _ => none

/-- Modelled from the spec (section 4.1), for comparison with
`resolve_token_spec` in the refinement claim: the three spec forms are
tried in priority order (URL, then set slash number shorthand, then
free-text name), the first successful resolution wins, and any lookup
failure of a step is caught and converted to not found. -/
def resolveSpecModel {Img : Type} (cat : Catalog Img)
    (upath : String → String) (spec : String) : Option String :=
  let s := pyTrim spec
  if pyStartsWith s "http" then
    let parts := pathParts (upath s)
    if parts.length ≥ 3 ∧ parts.headD "" = "card" then
      match cat.searchData
          ("set:" ++ parts.getD 1 "" ++ " number:" ++ parts.getD 2 "") with
      | .ok (r :: _) => some r.id
      | .ok [] => none
      | .error _ => none
    else none
  else if pyContainsChar s '/' then
    match cat.searchData
        ("set:" ++ (splitOnceSlash s).1 ++ " number:" ++ (splitOnceSlash s).2) with
    | .ok (r :: _) => some r.id
    | .ok [] => none
    | .error _ => none
  else
    match cat.namedFuzzy s with
    | .ok card => some card.id
    | .error _ => none

/-- Model of `random.sample(pop, k)`: repeatedly draws an index into the
remaining population (the random stream `rng` supplies one number per
draw, reduced modulo the current population size) and removes the drawn
element, so the sample is without replacement. Returns `none` (the
ValueError raise) exactly when `k` exceeds the population size. -/
def randomSample {α : Type} : List α → ℕ → List ℕ → Option (List α)
  | _, 0, _ => some []
  | [], _ + 1, _ => none
  | a :: pop, k + 1, rng =>
    let i := rng.headD 0 % (a :: pop).length
    match randomSample ((a :: pop).eraseIdx i) k rng.tail with
    | some rest => some ((a :: pop).getD i a :: rest)
    | none => none

/-- The function `process_card`. The courtesy `time.sleep` has no
observable effect in the model and is omitted; list mutation is modelled
by returning the extended image list and token set. The bare `raise` in
the except clause re-raises the original exception unchanged, which is
exactly error propagation in `Except`. -/
def process_card {Img : Type} (cat : Catalog Img) (upath : String → String)
    (rng : List ℕ) (infosName : String) (infosCount : ℕ)
    (image_list : List Img) (token_ids : Finset String)
    (add_tokens : Bool) : Except String (List Img × Finset String) := do
  let name := pyTrim infosName
  let card_data ←
    if pyStartsWith name "http" ||
        (pyContainsChar name '/' && !pyIsDigit name) then
      match resolve_token_spec cat upath name with
      | some tid =>
        if tid = "" then cat.namedFuzzy name else cat.byId tid
      | none => cat.namedFuzzy name
    else cat.namedFuzzy name
  if pyStartsWith card_data.type_line "Basic Land" then
    let candidates ← cat.searchData ("++" ++ infosName)
    match randomSample candidates infosCount rng with
    | none => Except.error "Sample larger than population or is negative"
    | some sampled => do
      let imgs ← sampled.mapM (fetch_image cat)
      pure (image_list ++ imgs, token_ids)
  else do
    let image ← fetch_image cat card_data
    pure (image_list ++ List.replicate infosCount image,
      if add_tokens then token_ids ∪ get_tokens card_data else token_ids)

/-- The function `process_token`: fetches the token record by id, then
appends two copies of its (once-fetched) image. -/
def process_token {Img : Type} (cat : Catalog Img) (ident : String)
    (image_list : List Img) : Except String (List Img) := do
  let token_data ← cat.byId ident
  let img ← fetch_image cat token_data
  pure (image_list ++ [img, img])

/-- The token-fetch loop of the driver, over one enumeration of the
token-id set; the second component logs the ids fetched, in order. -/
def tokenPhase {Img : Type} (cat : Catalog Img) :
    List String → List Img → Except String (List Img × List String)
  | [], acc => Except.ok (acc, [])
  | ident :: rest, acc => do
    let acc2 ← process_token cat ident acc
    let (accF, fetchLog) ← tokenPhase cat rest acc2
    pure (accF, ident :: fetchLog)

/-- The card loop of the driver: each deck entry is a (name, count) pair
together with the slice of the random stream its processing consumes. -/
def card_phase {Img : Type} (cat : Catalog Img) (upath : String → String) :
    List ((String × ℕ) × List ℕ) → List Img → Finset String → Bool →
    Except String (List Img × Finset String)
  | [], imgs, toks, _ => Except.ok (imgs, toks)
  | (entry, rng) :: rest, imgs, toks, addTok => do
    let (i2, t2) ← process_card cat upath rng entry.1 entry.2 imgs toks addTok
    card_phase cat upath rest i2 t2 addTok

/-- The driver flow from the parsed deck to the final image sequence:
the card phase accumulates images and token ids (seeded with the forced
token ids), then the token phase appends token images. Iteration order
of the Python set is the oracle `enum`. -/
def main_flow {Img : Type} (cat : Catalog Img) (upath : String → String)
    (deck : List ((String × ℕ) × List ℕ)) (forced : Finset String)
    (noTokens : Bool) (enum : Finset String → List String) :
    Except String (List Img) := do
  let addTokens := !noTokens
  let (imgs, token_ids) ← card_phase cat upath deck [] forced addTokens
  if (addTokens = true ∧ token_ids ≠ ∅) ∨ forced ≠ ∅ then do
    let (finalImgs, _) ← tokenPhase cat (enum token_ids) imgs
    pure finalImgs
  else pure imgs

theorem length_cellsWithFiller (l : List PyImage) (h w c : ℕ) :
    (cellsWithFiller l h w c).length = 9 * (l.length / 9 + 1) := by
  simp only [cellsWithFiller, List.length_append, List.length_replicate, nbMissing]
  omega

theorem tile_in_pages_cons (img0 : PyImage) (rest : List PyImage)
    (hsh : sameShapeB (img0 :: rest) = true) :
    tile_in_pages (img0 :: rest) =
      some ((List.range (((img0 :: rest).length / 9 + 1))).map
        (pageAt
          ((cellsWithFiller (img0 :: rest) img0.h img0.w img0.c).map
            (padCell (cellPadH img0.h) (cellPadW img0.w)))
          (cellPadH img0.h + img0.h) (cellPadW img0.w + img0.w) img0.c
          (marginH (cellPadH img0.h + img0.h))
          (marginW (cellPadW img0.w + img0.w)))) := by
  simp only [sameShapeB] at hsh
  simp only [tile_in_pages, hsh, if_true, length_cellsWithFiller,
    Nat.mul_div_cancel_left _ (by norm_num : (0:ℕ) < 9)]

/-- C1: for every accepted image sequence of length N at least 1, the
layout engine produces exactly floor(N / 9) + 1 pages, which equals
ceil(N / 9) plus one extra page exactly when N mod 9 = 0; every page
holds exactly 9 cells (filler cells included), and when N mod 9 = 0 the
extra last page consists entirely of white filler cells. -/
theorem claim1_page_count (l : List PyImage) (hne : l ≠ [])
    (hsh : sameShapeB l = true) :
    ∃ pages, tile_in_pages l = some pages ∧
      pages.length = l.length / 9 + 1 ∧
      l.length / 9 + 1 =
        (l.length + 8) / 9 + (if l.length % 9 = 0 then 1 else 0) ∧
      (∀ p, p < l.length / 9 + 1 → (pageCells l p).length = 9) ∧
      (l.length % 9 = 0 → pageCells l (l.length / 9) =
        List.replicate 9 (whiteCell (l.headD (whiteCell 0 0 0)).h
          (l.headD (whiteCell 0 0 0)).w (l.headD (whiteCell 0 0 0)).c)) := by
  cases l with
  | nil => exact absurd rfl hne
  | cons img0 rest =>
    refine ⟨_, tile_in_pages_cons img0 rest hsh, by simp, ?_, ?_, ?_⟩
    · have h1 : 0 < (img0 :: rest).length := by simp
      by_cases hm : (img0 :: rest).length % 9 = 0 <;> simp only [hm, if_true, if_false] <;> omega
    · intro p hp
      simp only [pageCells, List.length_take, List.length_drop,
        length_cellsWithFiller]
      omega
    · intro hmod
      have hlen : 9 * ((img0 :: rest).length / 9) = (img0 :: rest).length := by
        omega
      simp only [pageCells, cellsWithFiller, nbMissing, hmod, Nat.sub_zero,
        List.headD_cons, hlen, List.drop_left, List.take_replicate, min_self]

/-- Witness for C1 at the one-image list. -/
theorem claim1_page_count_witness :
    ([whiteCell 3 2 1] ≠ [] ∧ sameShapeB [whiteCell 3 2 1] = true) ∧
    (∃ pages, tile_in_pages [whiteCell 3 2 1] = some pages ∧
      pages.length = [whiteCell 3 2 1].length / 9 + 1 ∧
      [whiteCell 3 2 1].length / 9 + 1 =
        ([whiteCell 3 2 1].length + 8) / 9 +
          (if [whiteCell 3 2 1].length % 9 = 0 then 1 else 0) ∧
      (∀ p, p < [whiteCell 3 2 1].length / 9 + 1 →
        (pageCells [whiteCell 3 2 1] p).length = 9) ∧
      ([whiteCell 3 2 1].length % 9 = 0 →
        pageCells [whiteCell 3 2 1] ([whiteCell 3 2 1].length / 9) =
        List.replicate 9
          (whiteCell ([whiteCell 3 2 1].headD (whiteCell 0 0 0)).h
            ([whiteCell 3 2 1].headD (whiteCell 0 0 0)).w
            ([whiteCell 3 2 1].headD (whiteCell 0 0 0)).c))) :=
  ⟨⟨List.cons_ne_nil _ _, by decide⟩,
    claim1_page_count [whiteCell 3 2 1] (List.cons_ne_nil _ _) (by decide)⟩

/-- C10: under the shared-shape invariant the layout engine succeeds
exactly on nonempty inputs; the empty sequence fails on the unguarded
read of the first element. -/
theorem claim10_domain (l : List PyImage) (hsh : sameShapeB l = true) :
    (tile_in_pages l).isSome = true ↔ l ≠ [] := by
  cases l with
  | nil => simp [tile_in_pages]
  | cons img0 rest =>
    simp only [sameShapeB] at hsh
    simp [tile_in_pages, hsh]

/-- Witness for C10 at the one-image list. -/
theorem claim10_domain_witness :
    sameShapeB [whiteCell 4 5 1] = true ∧
    ((tile_in_pages [whiteCell 4 5 1]).isSome = true ↔
      [whiteCell 4 5 1] ≠ []) :=
  ⟨by decide, claim10_domain [whiteCell 4 5 1] (by decide)⟩

theorem randomSample_isSome_iff {α : Type} (k : ℕ) :
    ∀ (pop : List α) (rng : List ℕ),
      (randomSample pop k rng).isSome = true ↔ k ≤ pop.length := by
  induction k with
  | zero => intro pop rng; simp [randomSample]
  | succ k ih =>
    intro pop rng
    cases pop with
    | nil => simp [randomSample]
    | cons a pop =>
      simp only [randomSample]
      have hlt : rng.headD 0 % (a :: pop).length < (a :: pop).length :=
        Nat.mod_lt _ (by simp)
      have hlen :
          ((a :: pop).eraseIdx (rng.headD 0 % (a :: pop).length)).length =
            (a :: pop).length - 1 := by
        rw [List.length_eraseIdx, if_pos hlt]
      have hiff := ih ((a :: pop).eraseIdx (rng.headD 0 % (a :: pop).length))
        rng.tail
      rw [hlen] at hiff
      cases hr : randomSample
          ((a :: pop).eraseIdx (rng.headD 0 % (a :: pop).length)) k
          rng.tail with
      | none =>
        rw [hr] at hiff
        simp only [Option.isSome_none, Bool.false_eq_true, false_iff] at hiff
        simp only [Option.isSome_none, Bool.false_eq_true, false_iff]
        simp only [List.length_cons] at hiff ⊢
        omega
      | some out =>
        rw [hr] at hiff
        simp only [Option.isSome_some, true_iff] at hiff
        simp only [Option.isSome_some, true_iff, List.length_cons] at hiff ⊢
        omega

theorem randomSample_length {α : Type} (k : ℕ) :
    ∀ (pop : List α) (rng : List ℕ) (out : List α),
      randomSample pop k rng = some out → out.length = k := by
  induction k with
  | zero => intro pop rng out h; simp only [randomSample] at h
            cases h; rfl
  | succ k ih =>
    intro pop rng out h
    cases pop with
    | nil => simp [randomSample] at h
    | cons a pop =>
      simp only [randomSample] at h
      cases hr : randomSample
          ((a :: pop).eraseIdx (rng.headD 0 % (a :: pop).length)) k
          rng.tail with
      | none => rw [hr] at h; cases h
      | some rest =>
        rw [hr] at h
        cases h
        simp [ih _ _ _ hr]

theorem randomSample_subset {α : Type} (k : ℕ) :
    ∀ (pop : List α) (rng : List ℕ) (out : List α),
      randomSample pop k rng = some out → out ⊆ pop := by
  induction k with
  | zero => intro pop rng out h; simp only [randomSample] at h
            cases h; exact List.nil_subset _
  | succ k ih =>
    intro pop rng out h
    cases pop with
    | nil => simp [randomSample] at h
    | cons a pop =>
      simp only [randomSample] at h
      have hlt : rng.headD 0 % (a :: pop).length < (a :: pop).length :=
        Nat.mod_lt _ (by simp)
      cases hr : randomSample
          ((a :: pop).eraseIdx (rng.headD 0 % (a :: pop).length)) k
          rng.tail with
      | none => rw [hr] at h; cases h
      | some rest =>
        rw [hr] at h
        cases h
        refine List.cons_subset.mpr ⟨?_, ?_⟩
        · rw [List.getD_eq_getElem _ _ hlt]
          exact List.getElem_mem hlt
        · exact fun x hx =>
            (List.eraseIdx_sublist (a :: pop)
              (rng.headD 0 % (a :: pop).length)).subset (ih _ _ _ hr hx)

theorem randomSample_nodup {α : Type} [DecidableEq α] (k : ℕ) :
    ∀ (pop : List α) (rng : List ℕ) (out : List α), pop.Nodup →
      randomSample pop k rng = some out → out.Nodup := by
  induction k with
  | zero => intro pop rng out _ h; simp only [randomSample] at h
            cases h; exact List.nodup_nil
  | succ k ih =>
    intro pop rng out hnd h
    cases pop with
    | nil => simp [randomSample] at h
    | cons a pop =>
      simp only [randomSample] at h
      have hlt : rng.headD 0 % (a :: pop).length < (a :: pop).length :=
        Nat.mod_lt _ (by simp)
      cases hr : randomSample
          ((a :: pop).eraseIdx (rng.headD 0 % (a :: pop).length)) k
          rng.tail with
      | none => rw [hr] at h; cases h
      | some rest =>
        rw [hr] at h
        cases h
        have hsub : rest ⊆
            (a :: pop).eraseIdx (rng.headD 0 % (a :: pop).length) :=
          randomSample_subset k _ _ _ hr
        have hndE :
            ((a :: pop).eraseIdx (rng.headD 0 % (a :: pop).length)).Nodup :=
          (List.eraseIdx_sublist _ _).nodup hnd
        refine List.nodup_cons.mpr ⟨?_, ih _ _ _ hndE hr⟩
        rw [List.getD_eq_getElem _ _ hlt]
        intro hmem
        have herase := hnd.erase_getElem (rng.headD 0 % (a :: pop).length) hlt
        rw [← herase] at hsub
        exact hnd.not_mem_erase (hsub hmem)

instance instDecEqExcept {ε α : Type _} [DecidableEq ε] [DecidableEq α] :
    DecidableEq (Except ε α)
  | Except.ok a, Except.ok b =>
    if h : a = b then isTrue (by rw [h])
    else isFalse (fun hh => h (Except.ok.inj hh))
  | Except.ok _, Except.error _ => isFalse (fun hh => Except.noConfusion hh)
  | Except.error _, Except.ok _ => isFalse (fun hh => Except.noConfusion hh)
  | Except.error e, Except.error f =>
    if h : e = f then isTrue (by rw [h])
    else isFalse (fun hh => h (Except.error.inj hh))

theorem mapM_fetch_ok {Img : Type} (cat : Catalog Img)
    (gimg : CardRecord → Img) :
    ∀ l : List CardRecord,
      (∀ r ∈ l, cat.imageBytes r.image_normal = Except.ok (gimg r)) →
      l.mapM (fetch_image cat) = Except.ok (l.map gimg) := by
  intro l
  induction l with
  | nil => intro _; rfl
  | cons a l ih =>
    intro h
    rw [List.mapM_cons]
    simp only [fetch_image]
    rw [h a (List.mem_cons_self a l),
      ih (fun r hr => h r (List.mem_cons_of_mem a hr))]
    rfl

/-- C4: for a deck entry resolving to a basic land with count k, whose
catalog printings query returns n candidates, the resolver succeeds
exactly when k is at most n, appending exactly k images, one per
printing drawn without replacement (a subset of the candidates, with no
repeats whenever the candidate list has no duplicates); when k exceeds
n the sampling step raises instead of repeating or truncating. -/
theorem claim4_basic_land (Img : Type) (cat : Catalog Img)
    (upath : String → String) (rng : List ℕ) (infosName : String)
    (infosCount : ℕ) (image_list : List Img) (token_ids : Finset String)
    (add_tokens : Bool) (card : CardRecord) (candidates : List CardRecord)
    (gimg : CardRecord → Img)
    (hcond : (pyStartsWith (pyTrim infosName) "http" ||
      (pyContainsChar (pyTrim infosName) '/' &&
        !pyIsDigit (pyTrim infosName))) = false)
    (hfuzzy : cat.namedFuzzy (pyTrim infosName) = Except.ok card)
    (hbasic : pyStartsWith card.type_line "Basic Land" = true)
    (hsearch : cat.searchData ("++" ++ infosName) = Except.ok candidates)
    (hfetch : ∀ r ∈ candidates,
      cat.imageBytes r.image_normal = Except.ok (gimg r)) :
    (infosCount ≤ candidates.length →
      ∃ sampled, randomSample candidates infosCount rng = some sampled ∧
        process_card cat upath rng infosName infosCount image_list token_ids
            add_tokens =
          Except.ok (image_list ++ sampled.map gimg, token_ids) ∧
        sampled.length = infosCount ∧ sampled ⊆ candidates ∧
        (candidates.Nodup → sampled.Nodup)) ∧
    (candidates.length < infosCount →
      process_card cat upath rng infosName infosCount image_list token_ids
          add_tokens =
        Except.error "Sample larger than population or is negative") := by
  constructor
  · intro hk
    obtain ⟨sampled, hs⟩ := Option.isSome_iff_exists.mp
      ((randomSample_isSome_iff infosCount candidates rng).mpr hk)
    have hsub := randomSample_subset infosCount candidates rng sampled hs
    have hmap := mapM_fetch_ok cat gimg sampled
      (fun r hr => hfetch r (hsub hr))
    refine ⟨sampled, hs, ?_,
      randomSample_length infosCount candidates rng sampled hs, hsub,
      fun hnd => randomSample_nodup infosCount candidates rng sampled hnd hs⟩
    simp only [process_card, hcond, Bool.false_eq_true, if_false, hfuzzy,
      Except.bind, bind, hbasic, if_true, hsearch, hs, hmap]
    rfl
  · intro hk
    have hnone : randomSample candidates infosCount rng = none :=
      Option.not_isSome_iff_eq_none.mp (fun hsome =>
        absurd ((randomSample_isSome_iff infosCount candidates rng).mp hsome)
          (by omega))
    simp only [process_card, hcond, Bool.false_eq_true, if_false, hfuzzy,
      Except.bind, bind, hbasic, if_true, hsearch, hnone]

def landA : CardRecord := ⟨"ida", "Basic Land - Island", "ua", []⟩

def landB : CardRecord := ⟨"idb", "Basic Land - Island", "ub", []⟩

def landC : CardRecord := ⟨"idc", "Basic Land - Island", "uc", []⟩

def islandCard : CardRecord := ⟨"idI", "Basic Land - Island", "ui", []⟩

def catLand : Catalog ℕ :=
  ⟨fun _ => Except.error "id lookup failed",
   fun n => if n = "Island" then Except.ok islandCard
            else Except.error "named failed",
   fun q => if q = "++Island" then Except.ok [landA, landB, landC]
            else Except.error "search failed",
   fun u => Except.ok u.data.length⟩

/-- Witness for C4: an Island entry with count 2 against a catalog
offering three printings. -/
theorem claim4_basic_land_witness :
    ((pyStartsWith (pyTrim "Island") "http" ||
        (pyContainsChar (pyTrim "Island") '/' &&
          !pyIsDigit (pyTrim "Island"))) = false ∧
      catLand.namedFuzzy (pyTrim "Island") = Except.ok islandCard ∧
      pyStartsWith islandCard.type_line "Basic Land" = true ∧
      catLand.searchData ("++" ++ "Island") =
        Except.ok [landA, landB, landC] ∧
      (∀ r ∈ [landA, landB, landC],
        catLand.imageBytes r.image_normal =
          Except.ok r.image_normal.data.length)) ∧
    ((2 ≤ [landA, landB, landC].length →
      ∃ sampled,
        randomSample [landA, landB, landC] 2 [0, 0] = some sampled ∧
        process_card catLand (fun s => s) [0, 0] "Island" 2 [] ∅ true =
          Except.ok
            (([] : List ℕ) ++
              sampled.map (fun r => r.image_normal.data.length), ∅) ∧
        sampled.length = 2 ∧ sampled ⊆ [landA, landB, landC] ∧
        ([landA, landB, landC].Nodup → sampled.Nodup)) ∧
    ([landA, landB, landC].length < 2 →
      process_card catLand (fun s => s) [0, 0] "Island" 2 [] ∅ true =
        Except.error "Sample larger than population or is negative")) :=
  ⟨⟨by decide, by decide, by decide, by decide, by decide⟩,
    claim4_basic_land ℕ catLand (fun s => s) [0, 0] "Island" 2 [] ∅ true
      islandCard [landA, landB, landC]
      (fun r => r.image_normal.data.length)
      (by decide) (by decide) (by decide) (by decide) (by decide)⟩

/-- C5: for a non-land entry with count k the resolver fetches exactly
one image and appends exactly k copies of that identical image, and it
augments the token-id set with exactly the ids of the parts of the card
record whose component is token, unless token collection is disabled,
in which case the set is unchanged. -/
theorem claim5_nonland (Img : Type) (cat : Catalog Img)
    (upath : String → String) (rng : List ℕ) (infosName : String)
    (infosCount : ℕ) (image_list : List Img) (token_ids : Finset String)
    (add_tokens : Bool) (card : CardRecord) (img : Img)
    (hcond : (pyStartsWith (pyTrim infosName) "http" ||
      (pyContainsChar (pyTrim infosName) '/' &&
        !pyIsDigit (pyTrim infosName))) = false)
    (hfuzzy : cat.namedFuzzy (pyTrim infosName) = Except.ok card)
    (hnotbasic : pyStartsWith card.type_line "Basic Land" = false)
    (himg : cat.imageBytes card.image_normal = Except.ok img) :
    process_card cat upath rng infosName infosCount image_list token_ids
        add_tokens =
      Except.ok (image_list ++ List.replicate infosCount img,
        if add_tokens then token_ids ∪ get_tokens card else token_ids) ∧
    (∀ x, x ∈ get_tokens card ↔
      ∃ pr ∈ card.all_parts, pr.1 = "token" ∧ pr.2 = x) := by
  constructor
  · simp only [process_card, hcond, Bool.false_eq_true, if_false, hfuzzy,
      Except.bind, bind, hnotbasic, fetch_image, himg]
    rfl
  · intro x
    simp only [get_tokens, List.mem_toFinset, List.mem_map, List.mem_filter,
      decide_eq_true_eq]
    constructor
    · rintro ⟨pr, ⟨hmem, hcomp⟩, hid⟩
      exact ⟨pr, hmem, hcomp, hid⟩
    · rintro ⟨pr, hmem, hcomp, hid⟩
      exact ⟨pr, ⟨hmem, hcomp⟩, hid⟩

def boltCard : CardRecord :=
  ⟨"idbolt", "Instant", "ubolt",
    [("token", "tok1"), ("combo", "x2"), ("token", "tok2")]⟩

def catBolt : Catalog ℕ :=
  ⟨fun _ => Except.error "id lookup failed",
   fun n => if n = "Bolt" then Except.ok boltCard
            else Except.error "named failed",
   fun _ => Except.error "search failed",
   fun u => Except.ok u.data.length⟩

/-- Witness for C5: a two-copy non-land entry whose record exposes two
token parts. -/
theorem claim5_nonland_witness :
    ((pyStartsWith (pyTrim "Bolt") "http" ||
        (pyContainsChar (pyTrim "Bolt") '/' &&
          !pyIsDigit (pyTrim "Bolt"))) = false ∧
      catBolt.namedFuzzy (pyTrim "Bolt") = Except.ok boltCard ∧
      pyStartsWith boltCard.type_line "Basic Land" = false ∧
      catBolt.imageBytes boltCard.image_normal = Except.ok 5) ∧
    (process_card catBolt (fun s => s) [] "Bolt" 2 [9] ∅ true =
      Except.ok (([9] : List ℕ) ++ List.replicate 2 5,
        if (true : Bool) then (∅ : Finset String) ∪ get_tokens boltCard
        else (∅ : Finset String)) ∧
    (∀ x, x ∈ get_tokens boltCard ↔
      ∃ pr ∈ boltCard.all_parts, pr.1 = "token" ∧ pr.2 = x)) :=
  ⟨⟨by decide, by decide, by decide, by decide⟩,
    claim5_nonland ℕ catBolt (fun s => s) [] "Bolt" 2 [9] ∅ true boltCard 5
      (by decide) (by decide) (by decide) (by decide)⟩

def catFail : Catalog ℕ :=
  ⟨fun _ => Except.error "HTTP 404",
   fun _ => Except.error "HTTP 404",
   fun _ => Except.error "HTTP 404",
   fun _ => Except.error "HTTP 404"⟩

/-- C9 evaluation at the failing input: when the fuzzy name lookup for
the entry named Zzyzx raises, `process_card` propagates the original
exception text unchanged — the except clause is a bare re-raise — so
the propagated error does not carry the offending input (the error text
contains no character of the name Zzyzx). -/
theorem claim9_error_no_context :
    process_card catFail (fun s => s) [] "Zzyzx" 1 ([] : List ℕ) ∅ true =
      Except.error "HTTP 404" ∧
    "HTTP 404".data.all (fun ch => ch != 'Z' && ch != 'z' && ch != 'y' && ch != 'x') = true := by
  decide

/-- C6: identifier resolution tries the three spec forms in fixed
priority order (URL, then set-slash-number shorthand, then free-text
name), returns the first successful resolution's catalog id, and never
raises: every lookup failure, zero-result search or malformed URL path
becomes the not-found result. Stated as extensional equality between
the resolver translated from the code and the resolver written from the
words of the spec. -/
theorem claim6_resolver (Img : Type) (cat : Catalog Img)
    (upath : String → String) (spec : String) :
    resolve_token_spec cat upath spec = resolveSpecModel cat upath spec := by
  simp only [resolve_token_spec, resolveSpecModel, resolve_body]
  by_cases h1 : pyStartsWith (pyTrim spec) "http" = true
  · simp only [h1, if_true]
    by_cases h2 : (pathParts (upath (pyTrim spec))).length ≥ 3 ∧
        (pathParts (upath (pyTrim spec))).headD "" = "card"
    · simp only [h2, if_true]
      cases hres : cat.searchData
          ("set:" ++ (pathParts (upath (pyTrim spec))).getD 1 "" ++
            " number:" ++ (pathParts (upath (pyTrim spec))).getD 2 "") with
      | ok results =>
        cases results with
        | nil => simp [hres, Except.bind, bind, pure, Except.pure]
        | cons r rs => simp [hres, Except.bind, bind, pure, Except.pure]
      | error e => simp [hres, Except.bind, bind, pure, Except.pure]
    · rw [if_neg h2, if_neg h2]
      rfl
  · simp only [Bool.not_eq_true] at h1
    simp only [h1, Bool.false_eq_true, if_false]
    by_cases h3 : pyContainsChar (pyTrim spec) '/' = true
    · simp only [h3, if_true]
      cases hres : cat.searchData
          ("set:" ++ (splitOnceSlash (pyTrim spec)).1 ++ " number:" ++
            (splitOnceSlash (pyTrim spec)).2) with
      | ok results =>
        cases results with
        | nil => simp [hres, Except.bind, bind, pure, Except.pure]
        | cons r rs => simp [hres, Except.bind, bind, pure, Except.pure]
      | error e => simp [hres, Except.bind, bind, pure, Except.pure]
    · simp only [Bool.not_eq_true] at h3
      simp only [h3, Bool.false_eq_true, if_false]
      cases hnf : cat.namedFuzzy (pyTrim spec) with
      | ok card => simp [hnf, Except.bind, bind, pure, Except.pure]
      | error e => simp [hnf, Except.bind, bind, pure, Except.pure]

theorem tokenPhase_ok {Img : Type} (cat : Catalog Img) (timg : String → Img) :
    ∀ (ids : List String) (acc : List Img),
      (∀ tid ∈ ids, ∃ rec, cat.byId tid = Except.ok rec ∧
        cat.imageBytes rec.image_normal = Except.ok (timg tid)) →
      tokenPhase cat ids acc =
        Except.ok (acc ++ ids.flatMap (fun tid => [timg tid, timg tid]),
          ids) := by
  intro ids
  induction ids with
  | nil => intro acc _; simp [tokenPhase]
  | cons tid rest ih =>
    intro acc h
    obtain ⟨rec, hrec, himg⟩ := h tid (List.mem_cons_self tid rest)
    have hrest := fun t ht => h t (List.mem_cons_of_mem tid ht)
    simp only [tokenPhase, process_token, fetch_image, hrec, Except.bind,
      bind, pure, Except.pure, himg, ih (acc ++ [timg tid, timg tid]) hrest]
    simp

/-- C7: automatically collected token ids are deduplicated across the
whole deck (each id in the token-id set occurs exactly once in the
iteration of the set, so its record and image are fetched exactly
once), each token contributes exactly two copies of its image, and the
whole token section is appended after all card images. -/
theorem claim7_token_dedup (Img : Type) (cat : Catalog Img)
    (upath : String → String) (deck : List ((String × ℕ) × List ℕ))
    (forced : Finset String) (enum : Finset String → List String)
    (imgs : List Img) (token_ids : Finset String) (timg : String → Img)
    (hcard : card_phase cat upath deck [] forced true =
      Except.ok (imgs, token_ids))
    (hne : token_ids ≠ ∅)
    (hnd : (enum token_ids).Nodup)
    (henum : (enum token_ids).toFinset = token_ids)
    (hfetch : ∀ tid ∈ enum token_ids, ∃ rec,
      cat.byId tid = Except.ok rec ∧
      cat.imageBytes rec.image_normal = Except.ok (timg tid)) :
    main_flow cat upath deck forced false enum =
      Except.ok (imgs ++
        (enum token_ids).flatMap (fun tid => [timg tid, timg tid])) ∧
    ∀ tid ∈ token_ids, (enum token_ids).count tid = 1 := by
  constructor
  · simp only [main_flow, Bool.not_false, hcard, Except.bind, bind]
    rw [if_pos (Or.inl ⟨trivial, hne⟩)]
    simp [tokenPhase_ok cat timg (enum token_ids) imgs hfetch, Except.bind,
      bind, pure, Except.pure]
  · intro tid htid
    have hmem : tid ∈ enum token_ids := by
      rw [← henum] at htid
      exact List.mem_toFinset.mp htid
    exact List.count_eq_one_of_mem hnd hmem

def cardA : CardRecord := ⟨"idA", "Creature", "uA", [("token", "tokT")]⟩

def cardB : CardRecord := ⟨"idB", "Creature", "uB", [("token", "tokT")]⟩

def tokenT : CardRecord := ⟨"tokT", "Token Creature", "uT", []⟩

def catTok : Catalog ℕ :=
  ⟨fun i => if i = "tokT" then Except.ok tokenT else Except.error "id failed",
   fun n => if n = "CardA" then Except.ok cardA
            else if n = "CardB" then Except.ok cardB
            else Except.error "named failed",
   fun _ => Except.error "search failed",
   fun u => Except.ok u.data.length⟩

def deckTok : List ((String × ℕ) × List ℕ) :=
  [(("CardA", 1), []), (("CardB", 1), [])]

/-- Witness for C7: two cards both referencing the token id tokT. -/
theorem claim7_token_dedup_witness :
    (card_phase catTok (fun s => s) deckTok [] ∅ true =
        Except.ok ([2, 2], ({"tokT"} : Finset String)) ∧
      ({"tokT"} : Finset String) ≠ ∅ ∧
      (["tokT"] : List String).Nodup ∧
      (["tokT"] : List String).toFinset = ({"tokT"} : Finset String) ∧
      (∀ tid ∈ (["tokT"] : List String), ∃ rec,
        catTok.byId tid = Except.ok rec ∧
        catTok.imageBytes rec.image_normal = Except.ok 2)) ∧
    (main_flow catTok (fun s => s) deckTok ∅ false (fun _ => ["tokT"]) =
      Except.ok (([2, 2] : List ℕ) ++
        (["tokT"] : List String).flatMap (fun _ => [2, 2])) ∧
    ∀ tid ∈ ({"tokT"} : Finset String),
      (["tokT"] : List String).count tid = 1) :=
  ⟨⟨by decide, by decide, by decide, by decide,
    fun tid htid => by
      rw [List.mem_singleton] at htid
      subst htid
      exact ⟨tokenT, by decide, by decide⟩⟩,
   claim7_token_dedup ℕ catTok (fun s => s) deckTok ∅ (fun _ => ["tokT"])
     [2, 2] {"tokT"} (fun _ => 2) (by decide) (by decide) (by decide)
     (by decide)
     (fun tid htid => by
       rw [List.mem_singleton] at htid
       subst htid
       exact ⟨tokenT, by decide, by decide⟩)⟩

theorem pageAt_pix (padded : List PyImage) (hp wp c mh mw p r cc y x ch : ℕ)
    (hr : r ≤ 2) (hcc : cc ≤ 2) (hy : y < hp) (hx : x < wp) :
    (pageAt padded hp wp c mh mw p).pix (mh + r * hp + y)
        (mw + cc * wp + x) ch =
      (padded.getD (9 * p + 3 * r + cc) (whiteCell hp wp c)).pix y x ch := by
  have hhp0 : 0 < hp := by omega
  have hwp0 : 0 < wp := by omega
  have hrb : r * hp + y < 3 * hp := by
    have h2 : r * hp ≤ 2 * hp := Nat.mul_le_mul_right hp hr
    omega
  have hcb : cc * wp + x < 3 * wp := by
    have h2 : cc * wp ≤ 2 * wp := Nat.mul_le_mul_right wp hcc
    omega
  simp only [pageAt]
  rw [if_neg (by push_neg; refine ⟨by omega, by omega, by omega, by omega⟩)]
  have ey : mh + r * hp + y - mh = y + r * hp := by omega
  have ex : mw + cc * wp + x - mw = x + cc * wp := by omega
  rw [ey, ex, Nat.add_mul_div_right _ _ hhp0, Nat.add_mul_div_right _ _ hwp0,
    Nat.add_mul_mod_self_right, Nat.add_mul_mod_self_right,
    Nat.div_eq_of_lt hy, Nat.div_eq_of_lt hx, Nat.mod_eq_of_lt hy,
    Nat.mod_eq_of_lt hx]
  simp

theorem extract_pixel (img0 : PyImage) (rest : List PyImage)
    (hsh : sameShapeB (img0 :: rest) = true)
    (pages : List PyImage)
    (hpages : tile_in_pages (img0 :: rest) = some pages)
    (i y x ch : ℕ)
    (hi : i < 9 * ((img0 :: rest).length / 9 + 1))
    (hy : y < cellPadH img0.h + img0.h)
    (hx : x < cellPadW img0.w + img0.w) :
    extractCellPix pages (cellPadH img0.h + img0.h)
        (cellPadW img0.w + img0.w)
        (marginH (cellPadH img0.h + img0.h))
        (marginW (cellPadW img0.w + img0.w)) i y x ch =
      (padCell (cellPadH img0.h) (cellPadW img0.w)
        ((cellsWithFiller (img0 :: rest) img0.h img0.w img0.c).getD i
          (whiteCell img0.h img0.w img0.c))).pix y x ch := by
  rw [tile_in_pages_cons img0 rest hsh] at hpages
  have hpg := (Option.some.inj hpages).symm
  subst hpg
  have hig : i < (cellsWithFiller (img0 :: rest) img0.h img0.w img0.c).length := by
    rw [length_cellsWithFiller]
    exact hi
  have hpq : i / 9 < (img0 :: rest).length / 9 + 1 :=
    (Nat.div_lt_iff_lt_mul (by norm_num)).mpr (by omega)
  unfold extractCellPix
  rw [List.getD_eq_getElem?_getD, List.getElem?_map, List.getElem?_range hpq]
  simp only [Option.map_some', Option.getD_some]
  rw [pageAt_pix _ _ _ _ _ _ _ _ _ _ _ _ (by omega) (by omega) hy hx]
  have e7 : 9 * (i / 9) + 3 * (i % 9 / 3) + i % 9 % 3 = i := by omega
  rw [e7]
  rw [List.getD_eq_getElem?_getD, List.getElem?_map,
    List.getElem?_eq_getElem hig]
  rw [List.getD_eq_getElem _ _ hig]
  rfl

/-- C8: the layout is a lossless tiling: reading cell i of the produced
pages back by the known grid geometry (page i / 9, grid row i % 9 / 3,
grid column i % 9 % 3, offset by the outer margins) recovers the padded
input cell i byte for byte, for every index of the input sequence, in
the original order — the engine extends the sequence with white filler
but never truncates, reorders or alters an input image. -/
theorem claim8_roundtrip (img0 : PyImage) (rest : List PyImage)
    (hsh : sameShapeB (img0 :: rest) = true) (pages : List PyImage)
    (hpages : tile_in_pages (img0 :: rest) = some pages) :
    ∀ i, i < (img0 :: rest).length → ∀ y x ch,
      y < cellPadH img0.h + img0.h → x < cellPadW img0.w + img0.w →
      extractCellPix pages (cellPadH img0.h + img0.h)
          (cellPadW img0.w + img0.w)
          (marginH (cellPadH img0.h + img0.h))
          (marginW (cellPadW img0.w + img0.w)) i y x ch =
        (padCell (cellPadH img0.h) (cellPadW img0.w)
          ((img0 :: rest).getD i (whiteCell img0.h img0.w img0.c))).pix
          y x ch := by
  intro i hi y x ch hy hx
  have hi9 : i < 9 * ((img0 :: rest).length / 9 + 1) := by omega
  rw [extract_pixel img0 rest hsh pages hpages i y x ch hi9 hy hx]
  have hcell : (cellsWithFiller (img0 :: rest) img0.h img0.w
        img0.c).getD i (whiteCell img0.h img0.w img0.c) =
      (img0 :: rest).getD i (whiteCell img0.h img0.w img0.c) := by
    simp only [cellsWithFiller]
    rw [List.getD_eq_getElem?_getD, List.getD_eq_getElem?_getD,
      List.getElem?_append_left hi]
  rw [hcell]

def imgT8 : PyImage := ⟨2, 3, 1, fun y x ch => 10 + y + x + ch⟩

def pagesT8 : List PyImage := (tile_in_pages [imgT8]).getD []

/-- Witness for C8 at a one-image sequence of a 2 x 3 image with
distinct pixel values. -/
theorem claim8_roundtrip_witness :
    (sameShapeB [imgT8] = true ∧ tile_in_pages [imgT8] = some pagesT8) ∧
    (∀ i, i < [imgT8].length → ∀ y x ch,
      y < cellPadH imgT8.h + imgT8.h → x < cellPadW imgT8.w + imgT8.w →
      extractCellPix pagesT8 (cellPadH imgT8.h + imgT8.h)
          (cellPadW imgT8.w + imgT8.w)
          (marginH (cellPadH imgT8.h + imgT8.h))
          (marginW (cellPadW imgT8.w + imgT8.w)) i y x ch =
        (padCell (cellPadH imgT8.h) (cellPadW imgT8.w)
          ([imgT8].getD i (whiteCell imgT8.h imgT8.w imgT8.c))).pix
          y x ch) :=
  ⟨⟨by decide, rfl⟩, claim8_roundtrip imgT8 [] (by decide) pagesT8 rfl⟩

/-- C2 (amended): the inter-card padding is
round(0.005 / 3.48 * cell_pixel_height) pixels on the height axis and
round(0.005 / 2.49 * cell_pixel_width) pixels on the width axis, but it
is applied as white padding on one side only of each axis — above and
to the left of every cell — not symmetrically on both sides: every
pixel of the remaining extent of the padded cell, down to its bottom
row and right column, is the unaltered image content. -/
theorem claim2_cell_padding (img0 : PyImage) (rest : List PyImage)
    (hsh : sameShapeB (img0 :: rest) = true) (pages : List PyImage)
    (hpages : tile_in_pages (img0 :: rest) = some pages) :
    cellPadH img0.h = (pyRound (5 * 100 * (img0.h : ℤ)) (1000 * 348)).toNat ∧
    cellPadW img0.w = (pyRound (5 * 100 * (img0.w : ℤ)) (1000 * 249)).toNat ∧
    (∀ i y x ch, i < 9 * ((img0 :: rest).length / 9 + 1) →
      y < cellPadH img0.h + img0.h → x < cellPadW img0.w + img0.w →
      (y < cellPadH img0.h ∨ x < cellPadW img0.w) →
      extractCellPix pages (cellPadH img0.h + img0.h)
        (cellPadW img0.w + img0.w) (marginH (cellPadH img0.h + img0.h))
        (marginW (cellPadW img0.w + img0.w)) i y x ch = 255) ∧
    (∀ i y x ch, i < 9 * ((img0 :: rest).length / 9 + 1) →
      y < img0.h → x < img0.w →
      extractCellPix pages (cellPadH img0.h + img0.h)
        (cellPadW img0.w + img0.w) (marginH (cellPadH img0.h + img0.h))
        (marginW (cellPadW img0.w + img0.w)) i (cellPadH img0.h + y)
        (cellPadW img0.w + x) ch =
        ((cellsWithFiller (img0 :: rest) img0.h img0.w img0.c).getD i
          (whiteCell img0.h img0.w img0.c)).pix y x ch) := by
  refine ⟨rfl, rfl, ?_, ?_⟩
  · intro i y x ch hi hy hx hpad
    rw [extract_pixel img0 rest hsh pages hpages i y x ch hi hy hx]
    simp only [padCell]
    rw [if_pos hpad]
  · intro i y x ch hi hy hx
    rw [extract_pixel img0 rest hsh pages hpages i (cellPadH img0.h + y)
      (cellPadW img0.w + x) ch hi (by omega) (by omega)]
    simp only [padCell]
    rw [if_neg (by omega), Nat.add_sub_cancel_left, Nat.add_sub_cancel_left]

/-- Witness for C2 (amended) at the one-image sequence. -/
theorem claim2_cell_padding_witness :
    (sameShapeB [imgT8] = true ∧ tile_in_pages [imgT8] = some pagesT8) ∧
    (cellPadH imgT8.h =
        (pyRound (5 * 100 * (imgT8.h : ℤ)) (1000 * 348)).toNat ∧
    cellPadW imgT8.w =
        (pyRound (5 * 100 * (imgT8.w : ℤ)) (1000 * 249)).toNat ∧
    (∀ i y x ch, i < 9 * ([imgT8].length / 9 + 1) →
      y < cellPadH imgT8.h + imgT8.h → x < cellPadW imgT8.w + imgT8.w →
      (y < cellPadH imgT8.h ∨ x < cellPadW imgT8.w) →
      extractCellPix pagesT8 (cellPadH imgT8.h + imgT8.h)
        (cellPadW imgT8.w + imgT8.w) (marginH (cellPadH imgT8.h + imgT8.h))
        (marginW (cellPadW imgT8.w + imgT8.w)) i y x ch = 255) ∧
    (∀ i y x ch, i < 9 * ([imgT8].length / 9 + 1) →
      y < imgT8.h → x < imgT8.w →
      extractCellPix pagesT8 (cellPadH imgT8.h + imgT8.h)
        (cellPadW imgT8.w + imgT8.w) (marginH (cellPadH imgT8.h + imgT8.h))
        (marginW (cellPadW imgT8.w + imgT8.w)) i (cellPadH imgT8.h + y)
        (cellPadW imgT8.w + x) ch =
        ((cellsWithFiller [imgT8] imgT8.h imgT8.w imgT8.c).getD i
          (whiteCell imgT8.h imgT8.w imgT8.c)).pix y x ch)) :=
  ⟨⟨by decide, rfl⟩, claim2_cell_padding imgT8 [] (by decide) pagesT8 rfl⟩

def imgC2 : PyImage := ⟨696, 498, 1, fun _ _ _ => 7⟩

def pagesC2 : List PyImage := (tile_in_pages [imgC2]).getD []

/-- Counterexample to C2 as stated: at a 696 x 498 input image of
constant pixel value 7, the computed pad amounts are 1 pixel per axis,
yet the padding is not symmetric: the bottom row of the first padded
cell (row 696 of the 697-row cell) holds image content 7, where
symmetric white padding on both sides would put white 255. -/
theorem claim2_cell_padding_cex :
    cellPadH 696 = 1 ∧ cellPadW 498 = 1 ∧
    ¬ (∀ y x ch, 697 - cellPadH 696 ≤ y → y < 697 → x < 499 →
        extractCellPix pagesC2 697 499 (marginH 697) (marginW 499) 0 y x ch
          = 255) :=
  ⟨by decide, by decide, fun hcl =>
    absurd (hcl 696 1 0 (by decide) (by decide) (by decide)) (by decide)⟩

/-- C3 (amended): the outer page margins are computed from the padded
single-cell pixel dimensions — the canvas shape recorded before the
grid rearrange — not from the dimensions of the assembled 3 x 3 grid:
missing_height = (11 - 3 * 3.48) / 3.48 * hp with hp the padded cell
height (and likewise for width), and half of each, rounded, is applied
as white padding symmetrically on both sides of the corresponding axis
of every page. -/
theorem claim3_page_margins (img0 : PyImage) (rest : List PyImage)
    (hsh : sameShapeB (img0 :: rest) = true) (pages : List PyImage)
    (hpages : tile_in_pages (img0 :: rest) = some pages) :
    marginH (cellPadH img0.h + img0.h) =
      (pyRound ((11 * 100 - 348 * 3) *
        ((cellPadH img0.h + img0.h : ℕ) : ℤ)) (348 * 2)).toNat ∧
    marginW (cellPadW img0.w + img0.w) =
      (pyRound ((85 * 10 - 249 * 3) *
        ((cellPadW img0.w + img0.w : ℕ) : ℤ)) (249 * 2)).toNat ∧
    ∀ p, p < (img0 :: rest).length / 9 + 1 →
      (pages.getD p (whiteCell 0 0 0)).h =
        2 * marginH (cellPadH img0.h + img0.h) +
          3 * (cellPadH img0.h + img0.h) ∧
      (pages.getD p (whiteCell 0 0 0)).w =
        2 * marginW (cellPadW img0.w + img0.w) +
          3 * (cellPadW img0.w + img0.w) ∧
      ∀ y x ch,
        (y < marginH (cellPadH img0.h + img0.h) ∨
          x < marginW (cellPadW img0.w + img0.w) ∨
          marginH (cellPadH img0.h + img0.h) +
            3 * (cellPadH img0.h + img0.h) ≤ y ∨
          marginW (cellPadW img0.w + img0.w) +
            3 * (cellPadW img0.w + img0.w) ≤ x) →
        (pages.getD p (whiteCell 0 0 0)).pix y x ch = 255 := by
  rw [tile_in_pages_cons img0 rest hsh] at hpages
  have hpg := (Option.some.inj hpages).symm
  subst hpg
  refine ⟨rfl, rfl, ?_⟩
  intro p hp
  rw [List.getD_eq_getElem?_getD, List.getElem?_map,
    List.getElem?_range hp]
  simp only [Option.map_some', Option.getD_some]
  refine ⟨rfl, rfl, ?_⟩
  intro y x ch hmargin
  simp only [pageAt]
  rw [if_pos hmargin]

/-- Witness for C3 (amended) at the one-image sequence. -/
theorem claim3_page_margins_witness :
    (sameShapeB [imgT8] = true ∧ tile_in_pages [imgT8] = some pagesT8) ∧
    (marginH (cellPadH imgT8.h + imgT8.h) =
      (pyRound ((11 * 100 - 348 * 3) *
        ((cellPadH imgT8.h + imgT8.h : ℕ) : ℤ)) (348 * 2)).toNat ∧
    marginW (cellPadW imgT8.w + imgT8.w) =
      (pyRound ((85 * 10 - 249 * 3) *
        ((cellPadW imgT8.w + imgT8.w : ℕ) : ℤ)) (249 * 2)).toNat ∧
    ∀ p, p < [imgT8].length / 9 + 1 →
      (pagesT8.getD p (whiteCell 0 0 0)).h =
        2 * marginH (cellPadH imgT8.h + imgT8.h) +
          3 * (cellPadH imgT8.h + imgT8.h) ∧
      (pagesT8.getD p (whiteCell 0 0 0)).w =
        2 * marginW (cellPadW imgT8.w + imgT8.w) +
          3 * (cellPadW imgT8.w + imgT8.w) ∧
      ∀ y x ch,
        (y < marginH (cellPadH imgT8.h + imgT8.h) ∨
          x < marginW (cellPadW imgT8.w + imgT8.w) ∨
          marginH (cellPadH imgT8.h + imgT8.h) +
            3 * (cellPadH imgT8.h + imgT8.h) ≤ y ∨
          marginW (cellPadW imgT8.w + imgT8.w) +
            3 * (cellPadW imgT8.w + imgT8.w) ≤ x) →
        (pagesT8.getD p (whiteCell 0 0 0)).pix y x ch = 255) :=
  ⟨⟨by decide, rfl⟩, claim3_page_margins imgT8 [] (by decide) pagesT8 rfl⟩

/-- Counterexample to C3 as stated: at a 696 x 498 input the padded
cell is 697 x 499 and the assembled 3 x 3 grid is 2091 pixels tall; the
claim computes missing_height from the grid height, which would give a
margin of round((11 - 3 * 3.48) / 3.48 * 2091 / 2) = 168 pixels and a
page height of 2091 + 2 * 168 = 2427, but the engine computes it from
the padded cell height and the produced page is 2203 pixels tall. -/
theorem claim3_page_margins_cex :
    (pagesC2.headD (whiteCell 0 0 0)).h = 2203 ∧
    (pyRound ((11 * 100 - 348 * 3) * ((3 * 697 : ℕ) : ℤ))
      (348 * 2)).toNat = 168 ∧
    3 * 697 + 2 * 168 = 2427 ∧ (2203 : ℕ) ≠ 2427 :=
  ⟨by decide, by decide, by decide, by decide⟩

end DeckPrinter
